import Mathlib

/-!
Shallow embedding of the Virtuos-Market ingestion pipeline (module-1) and
proofs checking the natural-language specification against the code.

Sources embedded here:
- `rate_limiter.py`   : token-bucket `RateLimiter` (`_refill_tokens`,
  `wait_if_needed`, `record_rate_limit`, `_adjust_rate_limit`)
- `fetcher.py`        : `BinanceDataFetcher.fetch_ohlc_data` result
  processing, batching loop, `aggregate_to_minute_bars`
- `cache_manager.py`  : `CacheManager.load_ohlc` and the in-memory LRU tier
- `validators.py`     : `DataValidator.validate_ohlc`, `fix_common_issues`,
  `_calculate_score`
- `data_validator.py` : the second (dict-returning) `DataValidator.validate_ohlc`

Conventions: Python floats are modelled as `ℚ` (the arithmetic in the code is
plain +,*,/,min,max on moderate values, where real-number semantics is the
intended reading); timestamps are `ℚ` seconds or `ℕ`/`ℤ` integral units as
noted per definition; pandas DataFrames are lists of row structures with a
fixed schema and no NA values (the fetched Binance payloads contain none, so
the `isna`-based checks of the validators never fire on embedded frames and
are omitted).  The file is organised as: all definitions first, then the
theorems settling the claims.
-/

namespace VirtuosMarket

/-! ## Definitions -/

/-! ### Rate limiter (`rate_limiter.py`)

State of `RateLimiter`: `tokens` / `current_limit` / `refill_rate` are floats
in the source, modelled as `ℚ`; the integer-valued `current_limit` updates in
`_adjust_rate_limit` use Python `int` truncation, modelled by `ℕ` floor
division in `RateLimiterAdaptive` below.  `recent_limits` is the list of
throttle-event wall-clock times in seconds. -/

namespace RateLimiterState

end RateLimiterState

/-- Adaptive part of `RateLimiter`: `current_limit` and `max_tokens` are
Python `int`s, `refill_rate` a float, `recent_limits` the times (seconds) of
recent throttle events. -/
structure RateLimiterAdaptive where
  currentLimit : ℕ
  maxTokens : ℕ
  refillRate : ℚ
  recentLimits : List ℚ
  deriving Repr, DecidableEq

namespace RateLimiterAdaptive

/-- `RateLimiter._adjust_rate_limit` (rate_limiter.py:144-161):
`current_limit = max(int(current_limit * 0.9), int(max_tokens * 0.5))`,
then `refill_rate = current_limit / 60`.  Python `int(x * 0.9)` on a
non-negative int is `⌊9x/10⌋`, i.e. `ℕ` floor division. -/
def adjustRateLimit (st : RateLimiterAdaptive) : RateLimiterAdaptive :=
  let cl := max (st.currentLimit * 9 / 10) (st.maxTokens / 2)
  { st with currentLimit := cl, refillRate := (cl : ℚ) / 60 }

/-- `RateLimiter.record_rate_limit` (rate_limiter.py:126-142): append `now`,
prune to the events with `now - t < 300`, and if at least 3 remain, run
`_adjust_rate_limit`. -/
def recordRateLimit (st : RateLimiterAdaptive) (now : ℚ) : RateLimiterAdaptive :=
  let recents := (st.recentLimits ++ [now]).filter (fun t => now - t < 300)
  let st' := { st with recentLimits := recents }
  if 3 ≤ recents.length then st'.adjustRateLimit else st'

end RateLimiterAdaptive

/-! ### OHLC data model and validators (`validators.py`, `data_validator.py`)

A pandas OHLC DataFrame row with the schema produced by
`BinanceDataFetcher._process_ohlc_data`: the six columns the validators
inspect.  Timestamps are in seconds. -/

structure OhlcRow where
  timestamp : ℚ
  «open» : ℚ
  high : ℚ
  low : ℚ
  close : ℚ
  volume : ℚ
  deriving Repr, DecidableEq

/-- Tags for the quality findings the two validators report (the code uses
formatted strings; only the kind and the count matter to the claims). -/
inductive Issue where
  | emptyFrame : Issue
  | duplicateTimestamps (count : ℕ) : Issue
  | negativeValues (col : String) (count : ℕ) : Issue
  | highBelowLow (count : ℕ) : Issue
  | extremeVolatility (count : ℕ) : Issue
  | timeGaps (count : ℕ) : Issue
  deriving Repr, DecidableEq

/-- `ValidationResult` (validators.py:24-32). -/
structure ValidationResult where
  valid : Bool
  issues : List Issue
  warnings : List Issue
  errors : List Issue
  metrics : List (String × ℕ)
  score : ℚ
  deriving Repr, DecidableEq

/-- `DataValidator._calculate_score` (validators.py:304-316):
`max(0, 1 - min(0.5, errors*0.1) - min(0.3, warnings*0.05))`. -/
def calculateScore (errors warnings : ℕ) : ℚ :=
  max 0 (1 - min (1/2) ((errors : ℚ) * (1/10)) - min (3/10) ((warnings : ℚ) * (1/20)))

/-- The five numeric columns checked for negative values
(validators.py:118). -/
def ohlcNumericCols : List (String × (OhlcRow → ℚ)) :=
  [("open", fun r => r.«open»), ("high", fun r => r.high), ("low", fun r => r.low),
   ("close", fun r => r.close), ("volume", fun r => r.volume)]

/-- Interval-seconds table of `validators.py:151-153` (note: smaller than
`INTERVAL_MAP`; default 60). -/
def intervalSecondsV (interval : String) : ℚ :=
  if interval = "1m" then 60
  else if interval = "5m" then 300
  else if interval = "15m" then 900
  else if interval = "1h" then 3600
  else if interval = "1d" then 86400
  else 60

/-- Interval-seconds table of `data_validator.py:79-84` (default 60). -/
def intervalSecondsDV (interval : String) : ℚ :=
  if interval = "1m" then 60
  else if interval = "3m" then 180
  else if interval = "5m" then 300
  else if interval = "15m" then 900
  else if interval = "30m" then 1800
  else if interval = "1h" then 3600
  else if interval = "2h" then 7200
  else if interval = "4h" then 14400
  else if interval = "6h" then 21600
  else if interval = "8h" then 28800
  else if interval = "12h" then 43200
  else if interval = "1d" then 86400
  else 60

/-- `df.sort_values('timestamp')` restricted to the timestamp column: the
sorted multiset of timestamps. -/
def sortedTimestamps (df : List OhlcRow) : List ℚ :=
  (df.map OhlcRow.timestamp).insertionSort (· ≤ ·)

/-- `timestamps.diff().dropna()`: consecutive differences of the sorted
timestamp column. -/
def timeDiffs (ts : List ℚ) : List ℚ :=
  List.zipWith (fun a b => a - b) ts.tail ts

/-- Number of gaps strictly larger than `1.5 ×` the expected interval width
(shared arithmetic of validators.py:155 and data_validator.py:89). -/
def gapCount (df : List OhlcRow) (intervalSeconds : ℚ) : ℕ :=
  ((timeDiffs (sortedTimestamps df)).filter (fun d => intervalSeconds * (3/2) < d)).length

/-- Extreme-volatility test of `validators.py:137-138`:
`|close - open| / open > 0.5` with pandas float semantics: when `open = 0`
the quotient is `±inf` (counts) unless `close = 0` too (`NaN`, does not
count). -/
def extremeVolV (o c : ℚ) : Bool :=
  if o = 0 then decide (c ≠ 0) else decide ((1:ℚ)/2 < |(c - o) / o|)

/-- Extreme-volatility test of `data_validator.py:66-68`: `open` is first
`replace(0, pd.NA)`, so rows with `open = 0` never count. -/
def extremeVolDV (o c : ℚ) : Bool :=
  if o = 0 then false else decide ((1:ℚ)/2 < |(c - o) / o|)

/-- `DataValidator.validate_ohlc` of `validators.py:65-166` on an embedded
(schema-complete, NA-free) frame.  Error accumulation order follows the
code: negative-value checks per column, then `high < low`; warnings:
extreme volatility, then time gaps.  `valid` starts `True` and is set
`False` exactly at the error sites, hence equals "no errors" here (the
missing-columns and missing-values error sites cannot fire on an embedded
frame). -/
def validateOhlc (df : List OhlcRow) (interval : String) : ValidationResult :=
  if df.isEmpty then
    { valid := false, issues := [], warnings := [], errors := [Issue.emptyFrame],
      metrics := [], score := calculateScore 1 0 }
  else
    let negs := ohlcNumericCols.filterMap (fun p =>
      let c := (df.filter (fun r => p.2 r < 0)).length
      if c ≠ 0 then some (Issue.negativeValues p.1 c, ("negative_" ++ p.1, c)) else none)
    let hlCount := (df.filter (fun r => r.high < r.low)).length
    let hlErrors := if hlCount ≠ 0 then [Issue.highBelowLow hlCount] else []
    let hlMetrics := if hlCount ≠ 0 then [("invalid_high_low", hlCount)] else []
    let volCount := (df.filter (fun r => extremeVolV r.«open» r.close)).length
    let volWarnings := if volCount ≠ 0 then [Issue.extremeVolatility volCount] else []
    let volMetrics := if volCount ≠ 0 then [("extreme_volatility", volCount)] else []
    let gc := gapCount df (intervalSecondsV interval)
    let gapWarnings := if gc ≠ 0 then [Issue.timeGaps gc] else []
    let gapMetrics := if gc ≠ 0 then [("time_gaps", gc)] else []
    let errors := negs.map Prod.fst ++ hlErrors
    let warnings := volWarnings ++ gapWarnings
    { valid := errors.isEmpty, issues := [], warnings := warnings, errors := errors,
      metrics := negs.map Prod.snd ++ hlMetrics ++ volMetrics ++ gapMetrics,
      score := calculateScore errors.length warnings.length }

/-- Result dictionary of the second validator
(`data_validator.py:94-98`). -/
structure DVResult where
  valid : Bool
  issues : List Issue
  metrics : List (String × ℕ)
  deriving Repr, DecidableEq

/-- `pandas.Series.duplicated().sum()`: occurrences after the first. -/
def duplicatedCount (l : List ℚ) : ℕ :=
  l.length - l.dedup.length

/-- `DataValidator.validate_ohlc` of `data_validator.py:12-98` on an embedded
(schema-complete, NA-free) frame.  Every finding lands in `issues` and
`valid = (issues == [])`; in this variant extreme volatility and time gaps
therefore make the report invalid.  Issue order follows the code: duplicate
timestamps, negative price columns, negative volume, `high < low`, extreme
volatility, time gaps. -/
def dataValidatorValidateOhlc (df : List OhlcRow) (interval : String) : DVResult :=
  let dups := duplicatedCount (df.map OhlcRow.timestamp)
  let dupIssues := if dups ≠ 0 then [Issue.duplicateTimestamps dups] else []
  let dupMetrics := if dups ≠ 0 then [("duplicate_timestamps", dups)] else []
  let priceCols : List (String × (OhlcRow → ℚ)) :=
    [("open", fun r => r.«open»), ("high", fun r => r.high), ("low", fun r => r.low),
     ("close", fun r => r.close)]
  let negs := priceCols.filterMap (fun p =>
    let c := (df.filter (fun r => p.2 r < 0)).length
    if c ≠ 0 then some (Issue.negativeValues p.1 c, ("negative_" ++ p.1 ++ "_count", c)) else none)
  let volNeg := (df.filter (fun r => r.volume < 0)).length
  let volNegIssues := if volNeg ≠ 0 then [Issue.negativeValues "volume" volNeg] else []
  let volNegMetrics := if volNeg ≠ 0 then [("negative_volume_count", volNeg)] else []
  let hlCount := (df.filter (fun r => r.high < r.low)).length
  let hlIssues := if hlCount ≠ 0 then [Issue.highBelowLow hlCount] else []
  let hlMetrics := if hlCount ≠ 0 then [("invalid_high_low_count", hlCount)] else []
  let volCount := (df.filter (fun r => extremeVolDV r.«open» r.close)).length
  let volIssues := if volCount ≠ 0 then [Issue.extremeVolatility volCount] else []
  let volMetrics := if volCount ≠ 0 then [("extreme_volatility_count", volCount)] else []
  let gc := gapCount df (intervalSecondsDV interval)
  let gapIssues := if 1 < df.length ∧ gc ≠ 0 then [Issue.timeGaps gc] else []
  let gapMetrics := if 1 < df.length then [("time_gaps", gc)] else []
  let issues := dupIssues ++ negs.map Prod.fst ++ volNegIssues ++ hlIssues ++ volIssues
    ++ gapIssues
  { valid := issues.isEmpty, issues := issues,
    metrics := dupMetrics ++ negs.map Prod.snd ++ volNegMetrics ++ hlMetrics ++ volMetrics
      ++ gapMetrics }

/-- Per-row effect of the `data_type == 'ohlc'` branch of
`DataValidator.fix_common_issues` (validators.py:276-291).  The intended
`high`/`low` swap at validators.py:282,
`df.loc[mask, ['high','low']] = df.loc[mask, ['low','high']]`, aligns the
right-hand DataFrame by column label before assigning, so it is a pandas
no-op: `high` receives the `high` column and `low` the `low` column and no
row is ever swapped (only the log line fires).  The only effective repair is
the absolute-value pass, which replaces the negative entries of each numeric
column by their absolute value (`abs` on a non-negative entry is the
identity, so it is `abs` everywhere).  Both passes are row-local, so the
vectorised pandas code is this map. -/
def fixOhlcRow (r : OhlcRow) : OhlcRow :=
  { r with «open» := |r.«open»|, high := |r.high|, low := |r.low|,
           close := |r.close|, volume := |r.volume| }

/-- `DataValidator.fix_common_issues(df, 'ohlc')` (validators.py:263-302). -/
def fixCommonIssuesOhlc (df : List OhlcRow) : List OhlcRow :=
  df.map fixOhlcRow

/-! ### Batch splitting (`fetcher.py:205-221`)

`fetch_ohlc_data` splits `[start_time, end_time)` with the inline loop

    while current_start < end_time:
        current_end = min(current_start + batch_duration, end_time)
        batches.append((current_start, current_end))
        current_start = current_end

Times are modelled in integer microseconds (`datetime` resolution).  The
Python loop does not terminate when `batch_duration = 0`; the fuel mirrors
that: `e - s` steps suffice exactly when the duration is positive. -/

/-- One unrolling of the batching loop, with explicit fuel. -/
def createBatchesAux (e d : ℤ) : ℕ → ℤ → List (ℤ × ℤ)
  | 0, _ => []
  | fuel + 1, s => if s < e then (s, min (s + d) e) :: createBatchesAux e d fuel (min (s + d) e) else []

/-- The batching loop of `fetch_ohlc_data` (fetcher.py:214-221). -/
def createBatches (s e d : ℤ) : List (ℤ × ℤ) :=
  createBatchesAux e d (e - s).toNat s

/-- `batch_duration` in microseconds (fetcher.py:205-212):
`total_candles = int(((end-start)/60s) / interval_minutes)`,
`batch_size = min(max_batch_size, total_candles)`,
`batch_duration = batch_size * interval_minutes` minutes. -/
def batchDurationUs (maxBatchSize m s e : ℤ) : ℤ :=
  min maxBatchSize ((e - s) / (m * 60000000)) * (m * 60000000)

/-! ### Fetch orchestration (`fetcher.py:177-299`)

A batch task either yields decoded kline rows or raises; `asyncio.gather`
with `return_exceptions=True` captures the exception as a value, modelled by
`Except String (List OhlcRow)`. -/

/-- `asyncio.gather` contract: results are delivered in task-submission
order regardless of completion order.  `comps` is the completion-ordered log
of `(task index, result)` pairs; `gather` re-establishes submission order
`0, …, n-1`.  (The default is irrelevant whenever every index completed.) -/
def gatherResults (n : ℕ) (comps : List (ℕ × Except String (List OhlcRow))) :
    List (Except String (List OhlcRow)) :=
  (List.range n).map fun i =>
    ((comps.find? (fun p => p.1 == i)).map Prod.snd).getD (Except.error "missing")

/-- Result-processing loop of `fetch_ohlc_data` (fetcher.py:232-237): an
exception is logged and skipped, a successful batch is appended
(`all_data.extend(result)`; the `elif result:` truthiness test skips empty
lists, which is the same as appending them). -/
def processBatchResults (results : List (Except String (List OhlcRow))) : List OhlcRow :=
  results.foldl
    (fun acc r =>
      match r with
      | Except.error _ => acc
      | Except.ok rows => acc ++ rows)
    []

/-- The successful payloads of a result list, in submission order. -/
def okPayloads (results : List (Except String (List OhlcRow))) : List (List OhlcRow) :=
  results.filterMap Except.toOption

/-- Observable outcome of one `fetch_ohlc_data` call: what is returned to
the caller, what is written to the cache by this call, and the validation
report that was computed (the code only logs it). -/
structure FetchOutcome where
  returned : Except String (List OhlcRow)
  cachedEntry : Option (List OhlcRow)
  report : Option ValidationResult
  deriving Repr

/-- Tail of `fetch_ohlc_data` (fetcher.py:198-251): on a cache hit return
the cached frame immediately; otherwise merge the batch results, run the
validator (its report is only logged, fetcher.py:243-245), cache the frame
(fetcher.py:248) and return it.  There is no failure path: batch exceptions
were already swallowed by `processBatchResults`. -/
def fetchOhlcData (cacheHit : Option (List OhlcRow))
    (batchResults : List (Except String (List OhlcRow))) (interval : String) : FetchOutcome :=
  match cacheHit with
  | some df => { returned := Except.ok df, cachedEntry := none, report := none }
  | none =>
    let df := processBatchResults batchResults
    let vr := validateOhlc df interval
    { returned := Except.ok df, cachedEntry := some df, report := some vr }

/-! ### Cache manager (`cache_manager.py`)

`_get_cache_path` derives the OHLC key from symbol, interval and the
`%Y%m%d`-formatted (day-granular) start/end dates; days are modelled as the
floor of the microsecond timestamp.  The metadata sidecar may be missing;
its datetimes keep full resolution. -/

structure OhlcCachePath where
  symbol : String
  interval : String
  startDay : ℤ
  endDay : ℤ
  deriving Repr, DecidableEq

/-- `CacheManager._get_cache_path("ohlc", …)` (cache_manager.py:29-58) with
both endpoints present.  Timestamps are UTC microseconds (non-negative). -/
def getCachePathOhlc (symbol interval : String) (startTime endTime : ℤ) : OhlcCachePath :=
  ⟨symbol, interval, startTime / 86400000000, endTime / 86400000000⟩

/-- The `.metadata.json` sidecar fields `load_ohlc` reads
(cache_manager.py:87-95). -/
structure CacheMeta where
  start_time : ℤ
  end_time : ℤ
  cache_version : String
  cached_at : ℤ
  deriving Repr, DecidableEq

/-- A persistent-tier entry: parquet payload plus optional sidecar. -/
structure DiskEntry where
  payload : List OhlcRow
  meta : Option CacheMeta
  deriving Repr, DecidableEq

/-- `CacheManager` state: the `OrderedDict` memory tier (head = least
recently used) and the on-disk entries keyed by path. -/
structure CacheManagerState where
  memoryCache : List (OhlcCachePath × List OhlcRow)
  disk : List (OhlcCachePath × DiskEntry)
  deriving Repr, DecidableEq

/-- `CacheManager._get_from_memory_cache` (cache_manager.py:71-78): on a
key match pop the entry and re-append it at the MRU end; no validity checks
of any kind. -/
def getFromMemoryCache (mem : List (OhlcCachePath × List OhlcRow)) (key : OhlcCachePath) :
    Option (List OhlcRow) × List (OhlcCachePath × List OhlcRow) :=
  match (mem.find? (fun p => p.1 == key)).map Prod.snd with
  | some df => (some df, mem.filter (fun p => ¬(p.1 == key)) ++ [(key, df)])
  | none => (none, mem)

/-- `CacheManager._add_to_memory_cache` (cache_manager.py:60-69):
re-insert at the MRU end, evicting the LRU entry past 10 items. -/
def addToMemoryCache (mem : List (OhlcCachePath × List OhlcRow)) (key : OhlcCachePath)
    (df : List OhlcRow) : List (OhlcCachePath × List OhlcRow) :=
  let m1 := mem.filter (fun p => ¬(p.1 == key)) ++ [(key, df)]
  if 10 < m1.length then m1.tail else m1

/-- `CacheManager.load_ohlc` (cache_manager.py:105-145).  Memory-tier hits
are returned with no checks.  A persistent-tier hit requires the payload
file and sidecar to exist, `cache_version` to equal the configured one, and
`cached_start ≤ start_time ∧ end_time ≤ cached_end`; the `cached_at`/TTL
fields are never consulted, and a failed check returns `None` without
deleting anything.  Returns the loaded frame and the updated state. -/
def loadOhlc (cfgVersion : String) (st : CacheManagerState) (symbol interval : String)
    (startTime endTime : ℤ) : Option (List OhlcRow) × CacheManagerState :=
  let path := getCachePathOhlc symbol interval startTime endTime
  ((getFromMemoryCache st.memoryCache path).1).elim
    (((st.disk.find? (fun p => p.1 == path)).map Prod.snd).elim
      (none, st)
      (fun entry =>
        entry.meta.elim
          (none, st)
          (fun meta =>
            if meta.cache_version ≠ cfgVersion then (none, st)
            else if startTime < meta.start_time ∨ meta.end_time < endTime then (none, st)
            else (some entry.payload,
              { st with memoryCache := addToMemoryCache st.memoryCache path entry.payload }))))
    (fun df => (some df, { st with memoryCache := (getFromMemoryCache st.memoryCache path).2 }))

/-- Modelled from the spec (the claim's validity requirement, spec §3
"CacheEntry" invariant and §4.2 "Validity check on read"): a stored entry is
a valid hit only if the cache version matches, the TTL has not elapsed, and
the covered range fully contains the requested range. -/
def specValidHit (meta : CacheMeta) (cfgVersion : String) (now ttl : ℤ)
    (startTime endTime : ℤ) : Prop :=
  meta.cache_version = cfgVersion ∧ now - meta.cached_at < ttl ∧
    meta.start_time ≤ startTime ∧ endTime ≤ meta.end_time

/-! ### Trade aggregation (`fetcher.py:422-481`)

A trade row as it reaches `aggregate_to_minute_bars`: the columns produced
by `_process_trades_data` plus the `bid_volume`/`ask_volume` columns added
by `compute_bid_ask_volumes`.  Timestamps are milliseconds (non-negative,
so `ℕ`, making truncation agree with pandas' floor-to-minute). -/

structure Trade where
  timestamp : ℕ
  price : ℚ
  quantity : ℚ
  bid_volume : ℚ
  ask_volume : ℚ
  deriving Repr, DecidableEq

/-- One 1-minute OHLC bar of the `resample('1T')` output (after renaming
and `dropna`); `timestamp` is the bucket start in milliseconds. -/
structure MinuteBar where
  timestamp : ℕ
  «open» : ℚ
  high : ℚ
  low : ℚ
  close : ℚ
  volume : ℚ
  bid_volume : ℚ
  ask_volume : ℚ
  trade_count : ℕ
  deriving Repr, DecidableEq

/-- The 1-minute bucket of a trade (`resample('1T')` key). -/
def tradeMinute (t : Trade) : ℕ := t.timestamp / 60000

/-- `df.sort_index()` after `set_index('timestamp')`: sort by timestamp. -/
def sortTrades (l : List Trade) : List Trade :=
  l.insertionSort (fun a b => a.timestamp ≤ b.timestamp)

/-- Prepend a trade to a run list: extend the first run when the minute
bucket matches, else open a new run. -/
def pushTrade (t : Trade) : List (Trade × List Trade) → List (Trade × List Trade)
  | [] => [(t, [])]
  | (u, g) :: rest =>
    if tradeMinute t = tradeMinute u then (t, u :: g) :: rest
    else (t, []) :: (u, g) :: rest

/-- Group a timestamp-sorted trade list into maximal runs sharing a minute
bucket, keeping each run's first trade separate so runs are non-empty by
construction (this is the grouping `resample` performs; empty buckets are
dropped by the `dropna`). -/
def groupByMinute : List Trade → List (Trade × List Trade)
  | [] => []
  | t :: ts => pushTrade t (groupByMinute ts)

/-- The aggregation dictionary of fetcher.py:443-454 applied to one bucket:
`open = first`, `high = max`, `low = min`, `close = last`, sums for the
volume columns and `count` for `trade_count`. -/
def mkBar (t : Trade) (g : List Trade) : MinuteBar :=
  { timestamp := tradeMinute t * 60000
    «open» := t.price
    high := g.foldl (fun m x => max m x.price) t.price
    low := g.foldl (fun m x => min m x.price) t.price
    close := (g.getLastD t).price
    volume := t.quantity + (g.map Trade.quantity).sum
    bid_volume := t.bid_volume + (g.map Trade.bid_volume).sum
    ask_volume := t.ask_volume + (g.map Trade.ask_volume).sum
    trade_count := g.length + 1 }

/-- `BinanceDataFetcher.aggregate_to_minute_bars` (fetcher.py:422-481):
sort by timestamp, resample into 1-minute buckets, aggregate each non-empty
bucket into a bar, drop empty buckets (`dropna`). -/
def aggregateToMinuteBars (trades : List Trade) : List MinuteBar :=
  (groupByMinute (sortTrades trades)).map fun p => mkBar p.1 p.2

/-! ### Concrete inputs used by counterexamples and witnesses -/

/-- A well-formed kline row used by several concrete instances. -/
def sampleRow : OhlcRow :=
  { timestamp := 0, «open» := 1, high := 1, low := 1, close := 1, volume := 1 }

/-- C1 counterexample input: the first batch succeeds, the second fails
permanently (its retries are exhausted inside `make_request`, so `gather`
hands the orchestrator the exception value). -/
def c1Results : List (Except String (List OhlcRow)) :=
  [Except.ok [sampleRow], Except.error "batch fetch failed"]

/-- C2 counterexample row: `high = 1 < low = 2`, a schema-breaking error
for the validator. -/
def c2BadRow : OhlcRow :=
  { timestamp := 0, «open» := 1, high := 1, low := 2, close := 1, volume := 1 }

/-- C2 counterexample input: a single successful batch carrying an invalid
frame. -/
def c2Results : List (Except String (List OhlcRow)) :=
  [Except.ok [c2BadRow]]

/-- C3 counterexample rows: distinct rows sharing the primary key
(timestamp 1). -/
def c3RowA : OhlcRow :=
  { timestamp := 1, «open» := 1, high := 1, low := 1, close := 1, volume := 1 }

/-- See `c3RowA`. -/
def c3RowB : OhlcRow :=
  { timestamp := 1, «open» := 2, high := 2, low := 2, close := 2, volume := 2 }

/-- C3 counterexample completion log: batch 1 completes before batch 0;
the two batches carry rows with equal timestamps. -/
def c3Comps : List (ℕ × Except String (List OhlcRow)) :=
  [(1, Except.ok [c3RowB]), (0, Except.ok [c3RowA])]

/-- C3 witness rows with strictly increasing timestamps. -/
def c3RowC : OhlcRow :=
  { timestamp := 2, «open» := 1, high := 1, low := 1, close := 1, volume := 1 }

/-- C3 witness completion log: adjacent sub-ranges completing out of
order. -/
def c3CompsLate : List (ℕ × Except String (List OhlcRow)) :=
  [(1, Except.ok [c3RowC]), (0, Except.ok [c3RowA])]

/-- The same completions in submission order. -/
def c3CompsEarly : List (ℕ × Except String (List OhlcRow)) :=
  [(0, Except.ok [c3RowA]), (1, Except.ok [c3RowC])]

/-- C4 counterexample sidecar: version matches, range covers `[0, 200]`,
but written at time 0. -/
def c4Meta : CacheMeta :=
  { start_time := 0, end_time := 200, cache_version := "1.0", cached_at := 0 }

/-- C4 counterexample cache state: empty memory tier, one persistent entry
for the requested range. -/
def c4State : CacheManagerState :=
  { memoryCache := []
    disk := [(getCachePathOhlc "BTCUSDT" "1m" 0 200, { payload := [sampleRow], meta := some c4Meta })] }

/-- C6 counterexample input: nominal capacity 10, effective limit already at
the 50% floor (5), two throttle events already in the window. -/
def c6State : RateLimiterAdaptive :=
  { currentLimit := 5, maxTokens := 10, refillRate := 5/60, recentLimits := [0, 0] }

/-- A two-row candle frame whose only defect is a 200-second gap between
1-minute bars (threshold `60 * 1.5 = 90`). -/
def gapOnlyFrame : List OhlcRow :=
  [{ timestamp := 0, «open» := 100, high := 100, low := 100, close := 100, volume := 1 },
   { timestamp := 200, «open» := 100, high := 100, low := 100, close := 100, volume := 1 }]

/-- C10 counterexample row: the absolute-value pass lifts `low = -3` to
`3 > high = 2` (and the high/low swap is a no-op anyway), so the returned
row violates `high ≥ low`. -/
def c10Row : OhlcRow :=
  { timestamp := 0, «open» := 1, high := 2, low := -3, close := 1, volume := 1 }

/-- Row used by the C10 witness: non-negative with `high = 1 < low = 2`, a
violation the repair pass leaves untouched. -/
def c10UnrepairedRow : OhlcRow :=
  { timestamp := 0, «open» := 1, high := 1, low := 2, close := 1, volume := 1 }

/-- C8 witness trades: two trades in distinct minute buckets. -/
def c8Trade1 : Trade :=
  { timestamp := 0, price := 10, quantity := 1, bid_volume := 1, ask_volume := 0 }

/-- See `c8Trade1`. -/
def c8Trade2 : Trade :=
  { timestamp := 65000, price := 20, quantity := 2, bid_volume := 0, ask_volume := 2 }

/-- See `c8Trade1`. -/
def c8Trades : List Trade := [c8Trade2, c8Trade1]

/-! ## Theorems -/

/-! ### Claims C1 and C2 -/

theorem processBatchResults_foldl_append (results : List (Except String (List OhlcRow)))
    (acc : List OhlcRow) :
    results.foldl
        (fun acc r =>
          match r with
          | Except.error _ => acc
          | Except.ok rows => acc ++ rows)
        acc
      = acc ++ (okPayloads results).flatten := by
  induction results generalizing acc with
  | nil => simp [okPayloads]
  | cons r rs ih =>
    cases r with
    | error e => simp [okPayloads, List.filterMap_cons, Except.toOption, ih]
    | ok rows =>
      simp [okPayloads, List.filterMap_cons, Except.toOption, ih, List.append_assoc]

theorem processBatchResults_eq_flatten (results : List (Except String (List OhlcRow))) :
    processBatchResults results = (okPayloads results).flatten := by
  simpa using processBatchResults_foldl_append results []

/-- C1: the claim asserts that a permanently failed batch makes the overall
call fail with a structured error.  Counterexample: with one successful and
one permanently failed batch, `fetch_ohlc_data` logs the exception, returns
`ok` with only the surviving batch, and caches that partial frame — the
failed sub-range is silently omitted. -/
theorem c1_counterexample :
    Except.error "batch fetch failed" ∈ c1Results ∧
      (fetchOhlcData none c1Results "1m").returned = Except.ok [sampleRow] ∧
      (fetchOhlcData none c1Results "1m").cachedEntry = some [sampleRow] := by
  refine ⟨by simp [c1Results], ?_, ?_⟩ <;>
    simp [fetchOhlcData, processBatchResults, c1Results]

/-- C1 amended: when at least one batch permanently fails, the overall call
still succeeds: it returns — and caches — exactly the concatenation of the
successful batch payloads, silently omitting every failed sub-range; no
error reporting the failed ranges is ever produced. -/
theorem c1_amended_failed_batches_dropped (results : List (Except String (List OhlcRow)))
    (interval msg : String) (hfail : Except.error msg ∈ results) :
    (fetchOhlcData none results interval).returned
        = Except.ok ((okPayloads results).flatten) ∧
      (fetchOhlcData none results interval).cachedEntry
        = some ((okPayloads results).flatten) := by
  constructor <;> simp [fetchOhlcData, processBatchResults_eq_flatten]

/-- Witness for `c1_amended_failed_batches_dropped` at the concrete failed
batch list. -/
theorem c1_amended_witness :
    (fetchOhlcData none c1Results "1m").returned
        = Except.ok ((okPayloads c1Results).flatten) ∧
      (fetchOhlcData none c1Results "1m").cachedEntry
        = some ((okPayloads c1Results).flatten) :=
  c1_amended_failed_batches_dropped c1Results "1m" "batch fetch failed" (by simp [c1Results])

/-- C2: the claim asserts that an invalid validation report makes the fetch
fail with `ValidationError`, with nothing cached or returned.
Counterexample: a frame with `high < low` is invalid, yet `fetch_ohlc_data`
only logs the report and still returns and caches the frame. -/
theorem c2_counterexample :
    (validateOhlc [c2BadRow] "1m").valid = false ∧
      (fetchOhlcData none c2Results "1m").returned = Except.ok [c2BadRow] ∧
      (fetchOhlcData none c2Results "1m").cachedEntry = some [c2BadRow] := by
  refine ⟨?_, ?_, ?_⟩
  · norm_num [validateOhlc, ohlcNumericCols, c2BadRow, extremeVolV, gapCount,
      sortedTimestamps, timeDiffs, intervalSecondsV, List.filter, List.filterMap,
      List.insertionSort, List.orderedInsert]
  · simp [fetchOhlcData, processBatchResults, c2Results]
  · simp [fetchOhlcData, processBatchResults, c2Results]

/-- C2 amended: the validation report never influences the outcome: even
when `valid == False`, the merged frame is returned and cached unchanged and
the report is merely logged; no `ValidationError` exists in the code.
(The `binance_fetcher.py` call site behaves the same: it prints the issues
and proceeds to cache and iterate over the frame.) -/
theorem c2_amended_invalid_report_ignored (results : List (Except String (List OhlcRow)))
    (interval : String)
    (hinvalid : (validateOhlc (processBatchResults results) interval).valid = false) :
    (fetchOhlcData none results interval).returned = Except.ok (processBatchResults results) ∧
      (fetchOhlcData none results interval).cachedEntry = some (processBatchResults results) ∧
      (fetchOhlcData none results interval).report
        = some (validateOhlc (processBatchResults results) interval) :=
  ⟨rfl, rfl, rfl⟩

/-- Witness for `c2_amended_invalid_report_ignored` at the concrete invalid
batch list. -/
theorem c2_amended_witness :
    (fetchOhlcData none c2Results "1m").returned = Except.ok (processBatchResults c2Results) ∧
      (fetchOhlcData none c2Results "1m").cachedEntry = some (processBatchResults c2Results) ∧
      (fetchOhlcData none c2Results "1m").report
        = some (validateOhlc (processBatchResults c2Results) "1m") :=
  c2_amended_invalid_report_ignored c2Results "1m" (by
    norm_num [validateOhlc, processBatchResults, c2Results, ohlcNumericCols, c2BadRow,
      extremeVolV, gapCount, sortedTimestamps, timeDiffs, intervalSecondsV, List.filter,
      List.filterMap, List.insertionSort, List.orderedInsert])

/-! ### Claim C3 -/

theorem find?_fst_eq_of_perm {β : Type} {l l' : List (ℕ × β)} (hperm : l.Perm l')
    (hnodup : (l.map Prod.fst).Nodup) (i : ℕ) :
    l.find? (fun p => p.1 == i) = l'.find? (fun p => p.1 == i) := by
  by_cases hex : ∃ p ∈ l, p.1 = i
  · obtain ⟨p, hp, hpi⟩ := hex
    have h1 : (l.find? (fun p => p.1 == i)).isSome :=
      List.find?_isSome.mpr ⟨p, hp, by simp [hpi]⟩
    have h2 : (l'.find? (fun p => p.1 == i)).isSome :=
      List.find?_isSome.mpr ⟨p, hperm.mem_iff.mp hp, by simp [hpi]⟩
    obtain ⟨q1, hq1⟩ := Option.isSome_iff_exists.mp h1
    obtain ⟨q2, hq2⟩ := Option.isSome_iff_exists.mp h2
    have hq1mem := List.mem_of_find?_eq_some hq1
    have hq2mem := hperm.mem_iff.mpr (List.mem_of_find?_eq_some hq2)
    have hq1key : q1.1 = i := by simpa using List.find?_some hq1
    have hq2key : q2.1 = i := by simpa using List.find?_some hq2
    have hq12 : q1 = q2 :=
      List.inj_on_of_nodup_map hnodup hq1mem hq2mem (by rw [hq1key, hq2key])
    rw [hq1, hq2, hq12]
  · push_neg at hex
    have h1n : l.find? (fun p => p.1 == i) = none :=
      List.find?_eq_none.mpr fun x hx => by simpa using hex x hx
    have h2n : l'.find? (fun p => p.1 == i) = none :=
      List.find?_eq_none.mpr fun x hx => by simpa using hex x (hperm.mem_iff.mpr hx)
    rw [h1n, h2n]

theorem gatherResults_perm (n : ℕ) {comps comps' : List (ℕ × Except String (List OhlcRow))}
    (hperm : comps.Perm comps') (hnodup : (comps.map Prod.fst).Nodup) :
    gatherResults n comps = gatherResults n comps' := by
  unfold gatherResults
  refine List.map_congr_left fun i _ => ?_
  rw [find?_fst_eq_of_perm hperm hnodup i]

/-- C3: the claim asserts the merged dataset handed to the validator is
sorted and deduplicated by primary key.  Counterexample: two successful
batches carrying distinct rows with the same timestamp are merged by plain
concatenation — `_process_ohlc_data` neither sorts nor deduplicates — so
the merged frame contains the primary key twice. -/
theorem c3_counterexample :
    processBatchResults (gatherResults 2 c3Comps) = [c3RowA, c3RowB] ∧
      c3RowA.timestamp = c3RowB.timestamp ∧ c3RowA ≠ c3RowB := by
  refine ⟨?_, by norm_num [c3RowA, c3RowB], ?_⟩
  · simp [gatherResults, processBatchResults, c3Comps, List.range_succ, List.find?]
  · simp only [c3RowA, c3RowB, ne_eq, OhlcRow.mk.injEq]
    norm_num

/-- C3 amended: the merged dataset is independent of the completion order —
`asyncio.gather` re-establishes task-submission order, so any permutation of
the completion log yields the same result list — and equals the plain
concatenation of the successful batch payloads in submission order.  No
sorting or deduplication pass exists, so the merge is strictly ascending
only under the additional assumptions that each batch payload is strictly
ascending and consecutive payload boundaries increase; duplicate keys are
never removed (`c3_counterexample`). -/
theorem c3_amended_merge_order (n : ℕ)
    (comps comps' : List (ℕ × Except String (List OhlcRow))) (interval : String)
    (hperm : comps.Perm comps') (hnodup : (comps.map Prod.fst).Nodup)
    (hne : [] ∉ okPayloads (gatherResults n comps))
    (hsorted : ∀ l ∈ okPayloads (gatherResults n comps),
      List.Chain' (fun a b : OhlcRow => a.timestamp < b.timestamp) l)
    (hbetween : List.Chain' (fun l1 l2 : List OhlcRow =>
        ∀ x ∈ l1.getLast?, ∀ y ∈ l2.head?, x.timestamp < y.timestamp)
      (okPayloads (gatherResults n comps))) :
    (fetchOhlcData none (gatherResults n comps') interval).returned
        = Except.ok ((okPayloads (gatherResults n comps)).flatten) ∧
      List.Chain' (fun a b : OhlcRow => a.timestamp < b.timestamp)
        ((okPayloads (gatherResults n comps)).flatten) := by
  constructor
  · rw [← gatherResults_perm n hperm hnodup]
    simp [fetchOhlcData, processBatchResults_eq_flatten]
  · exact (List.chain'_flatten hne).mpr ⟨hsorted, hbetween⟩

/-- Witness for `c3_amended_merge_order`: two adjacent batches completing
out of order produce the same — strictly ascending — merged frame as the
in-order completion. -/
theorem c3_amended_witness :
    (fetchOhlcData none (gatherResults 2 c3CompsEarly) "1m").returned
        = Except.ok ((okPayloads (gatherResults 2 c3CompsLate)).flatten) ∧
      List.Chain' (fun a b : OhlcRow => a.timestamp < b.timestamp)
        ((okPayloads (gatherResults 2 c3CompsLate)).flatten) :=
  c3_amended_merge_order 2 c3CompsLate c3CompsEarly "1m"
    (List.Perm.swap _ _ _)
    (by simp [c3CompsLate])
    (by simp [gatherResults, okPayloads, c3CompsLate, List.range_succ, List.find?,
      Except.toOption])
    (by
      intro l hl
      simp only [gatherResults, okPayloads, c3CompsLate, List.range_succ] at hl
      simp [List.find?, Except.toOption] at hl
      rcases hl with rfl | rfl <;> simp)
    (by
      simp [gatherResults, okPayloads, c3CompsLate, List.range_succ, List.find?,
        Except.toOption, c3RowA, c3RowC])

/-! ### Claim C4 -/

/-- C4: the claim asserts a cache read is a hit only if the version
matches, the TTL has not elapsed, and the covered range contains the
request — and that failing entries are deleted.  Counterexample: a
persistent entry written at time 0 and read far past any TTL is still
returned as a hit (`load_ohlc` never reads `cached_at` or any TTL), and
nothing is deleted. -/
theorem c4_counterexample :
    (loadOhlc "1.0" c4State "BTCUSDT" "1m" 0 200).1 = some [sampleRow] ∧
      ¬specValidHit c4Meta "1.0" 1000000000000000 604800000000 0 200 ∧
      ((loadOhlc "1.0" c4State "BTCUSDT" "1m" 0 200).2).disk = c4State.disk := by
  refine ⟨?_, ?_, ?_⟩
  · simp [loadOhlc, c4State, getFromMemoryCache, addToMemoryCache, c4Meta, List.find?]
  · simp only [specValidHit, c4Meta, not_and]
    intro _ h
    norm_num at h
  · simp [loadOhlc, c4State, getFromMemoryCache, addToMemoryCache, c4Meta, List.find?]

/-- C4 amended: `load_ohlc` never deletes anything (the persistent tier is
unchanged by every read); an entry present in the memory tier is returned
with no validity check at all; on a memory miss, a persistent entry is a hit
exactly when the payload and sidecar exist, `cache_version` equals the
configured version, and the covered range contains the requested range —
the TTL is never consulted. -/
theorem c4_amended_load_ohlc (cfgVersion : String) (st : CacheManagerState)
    (symbol interval : String) (s e : ℤ) :
    ((loadOhlc cfgVersion st symbol interval s e).2).disk = st.disk ∧
      (∀ df, (getFromMemoryCache st.memoryCache (getCachePathOhlc symbol interval s e)).1
          = some df →
        (loadOhlc cfgVersion st symbol interval s e).1 = some df) ∧
      ((getFromMemoryCache st.memoryCache (getCachePathOhlc symbol interval s e)).1 = none →
        ∀ df, ((loadOhlc cfgVersion st symbol interval s e).1 = some df ↔
          ∃ entry, (st.disk.find? (fun p => p.1 == getCachePathOhlc symbol interval s e)).map
              Prod.snd = some entry ∧
            ∃ meta, entry.meta = some meta ∧ meta.cache_version = cfgVersion ∧
              meta.start_time ≤ s ∧ e ≤ meta.end_time ∧ df = entry.payload)) := by
  rcases hgm : (getFromMemoryCache st.memoryCache (getCachePathOhlc symbol interval s e)).1
    with _ | df0
  · rcases hdisk : (st.disk.find? (fun p =>
        p.1 == getCachePathOhlc symbol interval s e)).map Prod.snd with _ | entry
    · have hload : loadOhlc cfgVersion st symbol interval s e = (none, st) := by
        simp only [loadOhlc, hgm, hdisk, Option.elim_none, Option.elim_some]
      refine ⟨by rw [hload], ?_, ?_⟩
      · intro df hdf
        exact absurd hdf (by simp)
      · intro _ df
        rw [hload, hdisk]
        simp
    · rcases hmeta : entry.meta with _ | meta
      · have hload : loadOhlc cfgVersion st symbol interval s e = (none, st) := by
          simp only [loadOhlc, hgm, hdisk, hmeta, Option.elim_none, Option.elim_some]
        refine ⟨by rw [hload], ?_, ?_⟩
        · intro df hdf
          exact absurd hdf (by simp)
        · intro _ df
          rw [hload, hdisk]
          simp [hmeta]
      · by_cases hv : meta.cache_version ≠ cfgVersion
        · have hload : loadOhlc cfgVersion st symbol interval s e = (none, st) := by
            simp only [loadOhlc, hgm, hdisk, hmeta, Option.elim_none, Option.elim_some]
            rw [if_pos hv]
          refine ⟨by rw [hload], ?_, ?_⟩
          · intro df hdf
            exact absurd hdf (by simp)
          · intro _ df
            rw [hload, hdisk]
            constructor
            · intro h
              exact absurd h (by simp)
            · rintro ⟨entry', he', meta', hm', hver, _⟩
              injection he' with he'
              subst he'
              rw [hmeta] at hm'
              injection hm' with hm'
              subst hm'
              exact absurd hver hv
        · push_neg at hv
          by_cases hrange : s < meta.start_time ∨ meta.end_time < e
          · have hload : loadOhlc cfgVersion st symbol interval s e = (none, st) := by
              simp only [loadOhlc, hgm, hdisk, hmeta, Option.elim_none, Option.elim_some]
              rw [if_neg (by simp [hv]), if_pos hrange]
            refine ⟨by rw [hload], ?_, ?_⟩
            · intro df hdf
              exact absurd hdf (by simp)
            · intro _ df
              rw [hload, hdisk]
              constructor
              · intro h
                exact absurd h (by simp)
              · rintro ⟨entry', he', meta', hm', _, hs', he2, _⟩
                injection he' with he'
                subst he'
                rw [hmeta] at hm'
                injection hm' with hm'
                subst hm'
                omega
          · have hload : loadOhlc cfgVersion st symbol interval s e
                = (some entry.payload,
                  { st with
                    memoryCache :=
                      addToMemoryCache st.memoryCache (getCachePathOhlc symbol interval s e)
                        entry.payload }) := by
              simp only [loadOhlc, hgm, hdisk, hmeta, Option.elim_none, Option.elim_some]
              rw [if_neg (by simp [hv]), if_neg hrange]
            push_neg at hrange
            refine ⟨by rw [hload], ?_, ?_⟩
            · intro df hdf
              exact absurd hdf (by simp)
            · intro _ df
              rw [hload]
              constructor
              · intro h
                have hdfe : df = entry.payload := by simpa using h.symm
                exact ⟨entry, hdisk, meta, hmeta, hv, hrange.1, hrange.2, hdfe⟩
              · rintro ⟨entry', he', meta', hm', _, _, _, hdf⟩
                rw [hdisk] at he'
                injection he' with he'
                subst he'
                simp [hdf]
  · have hload : loadOhlc cfgVersion st symbol interval s e
        = (some df0,
          { st with memoryCache :=
              (getFromMemoryCache st.memoryCache (getCachePathOhlc symbol interval s e)).2 }) := by
      simp only [loadOhlc, hgm, Option.elim_some]
    refine ⟨by rw [hload], ?_, ?_⟩
    · intro df hdf
      rw [hload]
      exact hdf
    · intro hnone
      exact absurd hnone (by simp)

/-- Witness for `c4_amended_load_ohlc` at the concrete state of the C4
counterexample: the persistent entry (version match, covering range) is a
hit and the disk is unchanged. -/
theorem c4_amended_witness :
    ((loadOhlc "1.0" c4State "BTCUSDT" "1m" 0 200).2).disk = c4State.disk ∧
      (loadOhlc "1.0" c4State "BTCUSDT" "1m" 0 200).1 = some [sampleRow] := by
  have h := c4_amended_load_ohlc "1.0" c4State "BTCUSDT" "1m" 0 200
  refine ⟨h.1, ?_⟩
  have hmem : (getFromMemoryCache c4State.memoryCache
      (getCachePathOhlc "BTCUSDT" "1m" 0 200)).1 = none := by
    simp [c4State, getFromMemoryCache]
  exact ((h.2.2 hmem [sampleRow]).mpr
    ⟨{ payload := [sampleRow], meta := some c4Meta },
      by simp [c4State, List.find?], c4Meta, rfl, rfl, by norm_num [c4Meta],
      by norm_num [c4Meta], rfl⟩)

/-! ### Claim C5 -/

/-- C6: the claim asserts that whenever ≥ 3 throttle events are in the
trailing 5-minute window, `current_limit` strictly decreases.  Counterexample:
with `current_limit = 5 = int(10 * 0.5)` already at the floor, the third
report leaves `current_limit = max(int(5*0.9), 5) = 5` unchanged. -/
theorem c6_counterexample :
    3 ≤ ((c6State.recentLimits ++ [0]).filter (fun t => (0:ℚ) - t < 300)).length ∧
      (c6State.recordRateLimit 0).currentLimit = c6State.currentLimit := by
  constructor <;>
    norm_num [c6State, RateLimiterAdaptive.recordRateLimit,
      RateLimiterAdaptive.adjustRateLimit, List.filter]

/-- C6 amended: when ≥ 3 throttle events lie in the trailing 5-minute window,
`record_rate_limit` sets `current_limit` to
`max(⌊0.9·current_limit⌋, ⌊0.5·max_tokens⌋)`: this is a strict decrease
whenever `current_limit` was strictly above the floor `⌊0.5·max_tokens⌋`
(at the floor it is unchanged), it never goes below that floor, and
`refill_rate` is recomputed as `current_limit / 60`. -/
theorem c6_amended_adjustment (st : RateLimiterAdaptive) (now : ℚ)
    (hwin : 3 ≤ ((st.recentLimits ++ [now]).filter (fun t => now - t < 300)).length)
    (hfloor : st.maxTokens / 2 < st.currentLimit) :
    (st.recordRateLimit now).currentLimit < st.currentLimit ∧
      st.maxTokens / 2 ≤ (st.recordRateLimit now).currentLimit ∧
      (st.recordRateLimit now).refillRate
        = ((st.recordRateLimit now).currentLimit : ℚ) / 60 := by
  have hpos : 0 < st.currentLimit := lt_of_le_of_lt (Nat.zero_le _) hfloor
  have hshrink : st.currentLimit * 9 / 10 < st.currentLimit := by
    have h9 : st.currentLimit * 9 < 10 * st.currentLimit := by omega
    exact Nat.div_lt_of_lt_mul h9
  unfold RateLimiterAdaptive.recordRateLimit
  simp only [hwin, if_pos]
  refine ⟨?_, ?_, rfl⟩
  · exact max_lt hshrink hfloor
  · exact le_max_right _ _

/-- Witness for `c6_amended_adjustment`: nominal 10, limit 9 above the floor
5; the third throttle report shrinks it to `max(⌊8.1⌋, 5) = 8`. -/
theorem c6_amended_witness :
    ((RateLimiterAdaptive.mk 9 10 (9/60) [0, 0]).recordRateLimit 0).currentLimit < 9 ∧
      (10 : ℕ) / 2 ≤ ((RateLimiterAdaptive.mk 9 10 (9/60) [0, 0]).recordRateLimit 0).currentLimit ∧
      ((RateLimiterAdaptive.mk 9 10 (9/60) [0, 0]).recordRateLimit 0).refillRate
        = (((RateLimiterAdaptive.mk 9 10 (9/60) [0, 0]).recordRateLimit 0).currentLimit : ℚ) / 60 :=
  c6_amended_adjustment (RateLimiterAdaptive.mk 9 10 (9/60) [0, 0]) 0
    (by norm_num [List.filter]) (by norm_num)

/-! ### Claim C9 -/

/-- C9: the claim asserts that for both validators a dataset whose only
defect is time gaps yields `valid == True` with a gap warning.
Counterexample: the `data_validator.py` variant records the gap in `issues`
and computes `valid = (issues == [])`, so the same gap-only frame yields
`valid == False`. -/
theorem c9_counterexample :
    (dataValidatorValidateOhlc gapOnlyFrame "1m").valid = false ∧
      (dataValidatorValidateOhlc gapOnlyFrame "1m").issues = [Issue.timeGaps 1] := by
  constructor <;>
    norm_num [dataValidatorValidateOhlc, gapOnlyFrame, duplicatedCount, gapCount,
      sortedTimestamps, timeDiffs, intervalSecondsDV, extremeVolDV,
      List.insertionSort, List.orderedInsert, List.dedup, List.filter]

/-- C9 amended: in `validators.py`'s `DataValidator.validate_ohlc`, a
non-empty candle frame with no negative values and `high ≥ low` everywhere is
reported `valid == True`, and when it contains time gaps
(`> 1.5 ×` interval) a time-gap entry appears among the warnings — gaps
never flip `valid`.  In `data_validator.py`'s variant, by contrast, the gap
lands in `issues` and forces `valid == False` (`c9_counterexample`). -/
theorem c9_amended_gaps_warn_only (df : List OhlcRow) (interval : String)
    (hne : ¬df.isEmpty)
    (hnonneg : ∀ r ∈ df, 0 ≤ r.«open» ∧ 0 ≤ r.high ∧ 0 ≤ r.low ∧ 0 ≤ r.close ∧ 0 ≤ r.volume)
    (hhl : ∀ r ∈ df, r.low ≤ r.high) :
    (validateOhlc df interval).valid = true ∧
      (0 < gapCount df (intervalSecondsV interval) →
        Issue.timeGaps (gapCount df (intervalSecondsV interval))
          ∈ (validateOhlc df interval).warnings) := by
  have hfilter : ∀ p ∈ ohlcNumericCols, (df.filter (fun r => p.2 r < 0)).length = 0 := by
    intro p hp
    rw [List.length_eq_zero, List.filter_eq_nil]
    intro r hr
    have h := hnonneg r hr
    fin_cases hp <;> simp only [decide_eq_true_eq, not_lt] <;>
      [exact h.1; exact h.2.1; exact h.2.2.1; exact h.2.2.2.1; exact h.2.2.2.2]
  have hhlcount : (df.filter (fun r => r.high < r.low)).length = 0 := by
    rw [List.length_eq_zero, List.filter_eq_nil]
    intro r hr
    simpa using not_lt.mpr (hhl r hr)
  have hnegs : ohlcNumericCols.filterMap (fun p =>
      let c := (df.filter (fun r => p.2 r < 0)).length
      if c ≠ 0 then some (Issue.negativeValues p.1 c, ("negative_" ++ p.1, c)) else none)
      = [] := by
    rw [List.filterMap_eq_nil]
    intro p hp
    simp [hfilter p hp]
  unfold validateOhlc
  simp only [hne, if_neg, Bool.not_eq_true, hnegs, hhlcount]
  constructor
  · simp
  · intro hgc
    have : gapCount df (intervalSecondsV interval) ≠ 0 := by omega
    simp [this, List.mem_append]

/-- Witness for `c9_amended_gaps_warn_only`: the gap-only frame has
`valid == True` and a `timeGaps 1` warning. -/
theorem c9_amended_witness :
    (validateOhlc gapOnlyFrame "1m").valid = true ∧
      Issue.timeGaps (gapCount gapOnlyFrame (intervalSecondsV "1m"))
        ∈ (validateOhlc gapOnlyFrame "1m").warnings := by
  have h := c9_amended_gaps_warn_only gapOnlyFrame "1m"
    (by norm_num [gapOnlyFrame])
    (by intro r hr; fin_cases hr <;> norm_num [gapOnlyFrame])
    (by intro r hr; fin_cases hr <;> norm_num [gapOnlyFrame])
  refine ⟨h.1, h.2 ?_⟩
  norm_num [gapCount, gapOnlyFrame, sortedTimestamps, timeDiffs, intervalSecondsV,
    List.insertionSort, List.orderedInsert, List.filter]

/-! ### Claim C10 -/

/-- C10: the claim asserts `fix_common_issues(df, 'ohlc')` leaves
`high ≥ low` in every row and no negative values.  Counterexample: for the
row `(open 1, high 2, low -3, close 1, volume 1)` the high/low repair does
nothing (the pandas label-aligned `.loc` assignment is a no-op — and the
swap mask would not even fire here, since `2 ≥ -3`), and the absolute-value
pass turns `low` into `3`, so the returned row has `high = 2 < low = 3`. -/
theorem c10_counterexample :
    fixCommonIssuesOhlc [c10Row]
      = [{ timestamp := 0, «open» := 1, high := 2, low := 3, close := 1, volume := 1 }] ∧
      ({ timestamp := 0, «open» := 1, high := 2, low := 3, close := 1, volume := 1 } : OhlcRow).high
        < ({ timestamp := 0, «open» := 1, high := 2, low := 3, close := 1, volume := 1 } : OhlcRow).low := by
  constructor
  · norm_num [fixCommonIssuesOhlc, fixOhlcRow, c10Row, abs_of_nonneg, abs_of_nonpos]
  · norm_num

/-- C10 amended: the repair pass leaves no negative values in
`open/high/low/close/volume`, but it never repairs a `high < low` violation:
the swapped-label `.loc` assignment aligns by column and is a pandas no-op,
so any row whose `high` is non-negative and below its `low` passes through
with `high < low` intact (and a negative `low` can even be reflected above
`high` by the absolute-value pass, `c10_counterexample`). -/
theorem c10_amended_fix_bounds (df : List OhlcRow) :
    (∀ r ∈ fixCommonIssuesOhlc df,
      0 ≤ r.«open» ∧ 0 ≤ r.high ∧ 0 ≤ r.low ∧ 0 ≤ r.close ∧ 0 ≤ r.volume) ∧
      (∀ r ∈ df, 0 ≤ r.high → r.high < r.low →
        fixOhlcRow r ∈ fixCommonIssuesOhlc df ∧ (fixOhlcRow r).high < (fixOhlcRow r).low) := by
  constructor
  · intro r hr
    obtain ⟨r₀, _, rfl⟩ := List.mem_map.mp hr
    unfold fixOhlcRow
    exact ⟨abs_nonneg _, abs_nonneg _, abs_nonneg _, abs_nonneg _, abs_nonneg _⟩
  · intro r hr hh hhl
    refine ⟨List.mem_map_of_mem fixOhlcRow hr, ?_⟩
    unfold fixOhlcRow
    simp only
    rw [abs_of_nonneg hh]
    calc r.high < r.low := hhl
      _ ≤ |r.low| := le_abs_self r.low

/-- Witness for `c10_amended_fix_bounds`: the non-negative row with
`high = 1 < low = 2` survives the repair pass with its violation intact. -/
theorem c10_amended_witness :
    0 ≤ (fixOhlcRow c10UnrepairedRow).low ∧
      fixOhlcRow c10UnrepairedRow ∈ fixCommonIssuesOhlc [c10UnrepairedRow] ∧
      (fixOhlcRow c10UnrepairedRow).high < (fixOhlcRow c10UnrepairedRow).low := by
  have h := c10_amended_fix_bounds [c10UnrepairedRow]
  have h2 := h.2 c10UnrepairedRow (List.mem_singleton.mpr rfl)
    (by norm_num [c10UnrepairedRow]) (by norm_num [c10UnrepairedRow])
  exact ⟨(h.1 _ h2.1).2.2.1, h2.1, h2.2⟩

/-! ### Claim C7 -/

theorem createBatchesAux_eq_nil {e d s : ℤ} (h : ¬s < e) (fuel : ℕ) :
    createBatchesAux e d fuel s = [] := by
  cases fuel <;> simp [createBatchesAux, h]

theorem createBatchesAux_mem {e d : ℤ} (hd : 1 ≤ d) :
    ∀ (fuel : ℕ) (s : ℤ), ∀ c ∈ createBatchesAux e d fuel s,
      s ≤ c.1 ∧ c.1 < c.2 ∧ c.2 ≤ e ∧ c.2 - c.1 ≤ d
  | 0, s => by simp [createBatchesAux]
  | fuel + 1, s => by
    intro c hc
    by_cases hse : s < e
    · simp only [createBatchesAux, hse, if_pos, List.mem_cons] at hc
      rcases hc with rfl | hc
      · simp only
        omega
      · have h := createBatchesAux_mem hd fuel (min (s + d) e) c hc
        omega
    · rw [createBatchesAux_eq_nil hse] at hc
      simp at hc

theorem createBatchesAux_chain (e d : ℤ) :
    ∀ (fuel : ℕ) (s : ℤ),
      List.Chain' (fun c c' : ℤ × ℤ => c.2 = c'.1) (createBatchesAux e d fuel s)
  | 0, _ => by simp [createBatchesAux]
  | fuel + 1, s => by
    by_cases hse : s < e
    · simp only [createBatchesAux, hse, if_pos]
      refine List.chain'_cons'.mpr ⟨?_, createBatchesAux_chain e d fuel _⟩
      intro y hy
      cases fuel with
      | zero => simp [createBatchesAux] at hy
      | succ g =>
        by_cases hme : min (s + d) e < e
        · simp only [createBatchesAux, hme, if_pos, List.head?_cons] at hy
          simp only [Option.mem_def, Option.some.injEq] at hy
          subst hy
          rfl
        · rw [createBatchesAux_eq_nil hme] at hy
          simp at hy
    · simp [createBatchesAux, hse]

theorem createBatchesAux_pairwise {e d : ℤ} (hd : 1 ≤ d) :
    ∀ (fuel : ℕ) (s : ℤ),
      List.Pairwise (fun c c' : ℤ × ℤ => c.2 ≤ c'.1) (createBatchesAux e d fuel s)
  | 0, _ => by simp [createBatchesAux]
  | fuel + 1, s => by
    by_cases hse : s < e
    · simp only [createBatchesAux, hse, if_pos]
      refine List.pairwise_cons.mpr ⟨?_, createBatchesAux_pairwise hd fuel _⟩
      intro c hc
      have h := createBatchesAux_mem hd fuel (min (s + d) e) c hc
      simp only
      omega
    · simp [createBatchesAux, hse]

theorem createBatchesAux_cover {e d : ℤ} (hd : 1 ≤ d) :
    ∀ (fuel : ℕ) (s : ℤ), (e - s).toNat ≤ fuel → ∀ t : ℤ, s ≤ t → t < e →
      ∃ c ∈ createBatchesAux e d fuel s, c.1 ≤ t ∧ t < c.2
  | 0, s, hfuel, t, hst, hte => by omega
  | fuel + 1, s, hfuel, t, hst, hte => by
    have hse : s < e := lt_of_le_of_lt hst hte
    simp only [createBatchesAux, hse, if_pos]
    by_cases htm : t < min (s + d) e
    · exact ⟨(s, min (s + d) e), List.mem_cons_self _ _, hst, htm⟩
    · have hm : min (s + d) e ≤ t := not_lt.mp htm
      have hlt : s < min (s + d) e := by omega
      have hfuel' : (e - min (s + d) e).toNat ≤ fuel := by omega
      obtain ⟨c, hc, h1, h2⟩ := createBatchesAux_cover hd fuel _ hfuel' t hm hte
      exact ⟨c, List.mem_cons_of_mem _ hc, h1, h2⟩

/-- C7: with `start < end` and a positive batch width, the batching loop of
`fetch_ohlc_data` yields sequential contiguous batches (each end equals the
next start), each non-empty, inside `[start, end)`, no wider than
`batch_duration` (which is at most `max_batch_size` bars wide), pairwise
disjoint, and covering `[start, end)` exactly: every instant of the
requested range lies in a batch and batches never reach outside it. -/
theorem c7_batches_partition (s e maxB m : ℤ) (hse : s < e) (hm : 0 < m)
    (hmaxB : 0 ≤ maxB) (hpos : 1 ≤ batchDurationUs maxB m s e) :
    List.Chain' (fun c c' : ℤ × ℤ => c.2 = c'.1) (createBatches s e (batchDurationUs maxB m s e)) ∧
      (∀ c ∈ createBatches s e (batchDurationUs maxB m s e),
        s ≤ c.1 ∧ c.1 < c.2 ∧ c.2 ≤ e ∧ c.2 - c.1 ≤ batchDurationUs maxB m s e) ∧
      batchDurationUs maxB m s e ≤ maxB * (m * 60000000) ∧
      List.Pairwise (fun c c' : ℤ × ℤ => c.2 ≤ c'.1)
        (createBatches s e (batchDurationUs maxB m s e)) ∧
      (∀ t : ℤ, (s ≤ t ∧ t < e) ↔
        ∃ c ∈ createBatches s e (batchDurationUs maxB m s e), c.1 ≤ t ∧ t < c.2) := by
  set d := batchDurationUs maxB m s e with hdef
  refine ⟨createBatchesAux_chain e d _ s, fun c hc => createBatchesAux_mem hpos _ s c hc,
    ?_, createBatchesAux_pairwise hpos _ s, fun t => ⟨fun ⟨h1, h2⟩ =>
      createBatchesAux_cover hpos _ s (le_refl _) t h1 h2, fun ⟨c, hc, h1, h2⟩ => ?_⟩⟩
  · have hw : (0:ℤ) ≤ m * 60000000 := by positivity
    exact mul_le_mul_of_nonneg_right (min_le_left _ _) hw
  · have h := createBatchesAux_mem hpos _ s c hc
    omega

/-- Witness for `c7_batches_partition`: a 3-minute range of 1-minute bars
with `max_batch_size = 2` splits into `[(0, 120s), (120s, 180s)]` (times in
microseconds). -/
theorem c7_batches_witness :
    List.Chain' (fun c c' : ℤ × ℤ => c.2 = c'.1)
        (createBatches 0 180000000 (batchDurationUs 2 1 0 180000000)) ∧
      (∀ c ∈ createBatches 0 180000000 (batchDurationUs 2 1 0 180000000),
        (0:ℤ) ≤ c.1 ∧ c.1 < c.2 ∧ c.2 ≤ 180000000 ∧ c.2 - c.1 ≤ batchDurationUs 2 1 0 180000000) ∧
      batchDurationUs 2 1 0 180000000 ≤ 2 * (1 * 60000000) ∧
      List.Pairwise (fun c c' : ℤ × ℤ => c.2 ≤ c'.1)
        (createBatches 0 180000000 (batchDurationUs 2 1 0 180000000)) ∧
      (∀ t : ℤ, ((0:ℤ) ≤ t ∧ t < 180000000) ↔
        ∃ c ∈ createBatches 0 180000000 (batchDurationUs 2 1 0 180000000), c.1 ≤ t ∧ t < c.2) :=
  c7_batches_partition 0 180000000 2 1 (by norm_num) (by norm_num) (by norm_num)
    (by norm_num [batchDurationUs])

/-! ### Claim C8 -/

theorem groupByMinute_flatten :
    ∀ l : List Trade, ((groupByMinute l).map (fun p => p.1 :: p.2)).flatten = l
  | [] => rfl
  | t :: ts => by
    have ih := groupByMinute_flatten ts
    rcases hg : groupByMinute ts with _ | ⟨⟨u, g⟩, rest⟩
    · rw [hg] at ih
      simp only [groupByMinute, hg, pushTrade]
      simp [← ih]
    · rw [hg] at ih
      simp only [groupByMinute, hg, pushTrade]
      by_cases hb : tradeMinute t = tradeMinute u
      · rw [if_pos hb]
        simp only [List.map_cons, List.flatten_cons] at ih ⊢
        simp [← ih]
      · rw [if_neg hb]
        simp only [List.map_cons, List.flatten_cons] at ih ⊢
        simp [← ih]

theorem groupByMinute_mem_bucket :
    ∀ l : List Trade, ∀ p ∈ groupByMinute l, ∀ x ∈ p.2, tradeMinute x = tradeMinute p.1
  | [] => by simp [groupByMinute]
  | t :: ts => by
    intro p hp x hx
    rcases hg : groupByMinute ts with _ | ⟨⟨u, g⟩, rest⟩
    · simp only [groupByMinute, hg, pushTrade] at hp
      simp only [List.mem_singleton] at hp
      subst hp
      simp at hx
    · simp only [groupByMinute, hg, pushTrade] at hp
      by_cases hb : tradeMinute t = tradeMinute u
      · rw [if_pos hb] at hp
        rcases List.mem_cons.mp hp with rfl | hp'
        · simp only at hx ⊢
          rcases List.mem_cons.mp hx with rfl | hx'
          · exact hb.symm
          · have := groupByMinute_mem_bucket ts (u, g) (hg ▸ List.mem_cons_self _ _) x hx'
            simpa [hb] using this
        · exact groupByMinute_mem_bucket ts p (hg ▸ List.mem_cons_of_mem _ hp') x hx
      · rw [if_neg hb] at hp
        rcases List.mem_cons.mp hp with rfl | hp'
        · simp at hx
        · exact groupByMinute_mem_bucket ts p (hg ▸ hp') x hx

theorem groupByMinute_structure {ts : List Trade} {u : Trade} {g : List Trade}
    {rest : List (Trade × List Trade)} (hg : groupByMinute ts = (u, g) :: rest) :
    ts = (u :: g) ++ ((rest.map (fun p => p.1 :: p.2)).flatten) := by
  have h := groupByMinute_flatten ts
  rw [hg] at h
  simpa using h.symm

theorem groupByMinute_chain :
    ∀ l : List Trade, List.Sorted (fun a b : Trade => a.timestamp ≤ b.timestamp) l →
      List.Chain' (fun p q : Trade × List Trade => tradeMinute p.1 < tradeMinute q.1)
        (groupByMinute l)
  | [] => by simp [groupByMinute]
  | t :: ts => by
    intro hs
    obtain ⟨ht, hts⟩ := List.sorted_cons.mp hs
    have ih := groupByMinute_chain ts hts
    rcases hg : groupByMinute ts with _ | ⟨⟨u, g⟩, rest⟩
    · simp [groupByMinute, hg, pushTrade]
    · rw [hg] at ih
      have hu : u ∈ ts := by
        rw [groupByMinute_structure hg]
        exact List.mem_append_left _ (List.mem_cons_self _ _)
      have hbu : tradeMinute t ≤ tradeMinute u := Nat.div_le_div_right (ht u hu)
      simp only [groupByMinute, hg, pushTrade]
      by_cases hb : tradeMinute t = tradeMinute u
      · rw [if_pos hb]
        obtain ⟨hhead, htail⟩ := List.chain'_cons'.mp ih
        exact List.chain'_cons'.mpr ⟨fun q hq => hb ▸ hhead q hq, htail⟩
      · rw [if_neg hb]
        exact List.chain'_cons.mpr ⟨lt_of_le_of_ne hbu hb, ih⟩

theorem groupByMinute_pairwise {l : List Trade}
    (hs : List.Sorted (fun a b : Trade => a.timestamp ≤ b.timestamp) l) :
    List.Pairwise (fun p q : Trade × List Trade => tradeMinute p.1 < tradeMinute q.1)
      (groupByMinute l) := by
  haveI : IsTrans (Trade × List Trade)
      (fun p q : Trade × List Trade => tradeMinute p.1 < tradeMinute q.1) :=
    ⟨fun _ _ _ hab hbc => Nat.lt_trans hab hbc⟩
  exact List.chain'_iff_pairwise.mp (groupByMinute_chain l hs)

theorem groupByMinute_filter :
    ∀ l : List Trade, List.Sorted (fun a b : Trade => a.timestamp ≤ b.timestamp) l →
      ∀ p ∈ groupByMinute l,
        p.1 :: p.2 = l.filter (fun x => tradeMinute x == tradeMinute p.1)
  | [] => by simp [groupByMinute]
  | t :: ts => by
    intro hs p hp
    obtain ⟨ht, hts⟩ := List.sorted_cons.mp hs
    rcases hg : groupByMinute ts with _ | ⟨⟨u, g⟩, rest⟩
    · have hts_nil : ts = [] := by
        have h := groupByMinute_flatten ts
        rw [hg] at h
        simpa using h.symm
      subst hts_nil
      simp only [groupByMinute, hg, pushTrade] at hp
      simp only [List.mem_singleton] at hp
      subst hp
      simp [List.filter]
    · have hts_eq := groupByMinute_structure hg
      have hu : u ∈ ts := by
        rw [hts_eq]
        exact List.mem_append_left _ (List.mem_cons_self _ _)
      have hbu : tradeMinute t ≤ tradeMinute u := Nat.div_le_div_right (ht u hu)
      have hu_le : ∀ x ∈ ts, tradeMinute u ≤ tradeMinute x := by
        intro x hx
        rw [hts_eq] at hx
        rcases List.mem_append.mp hx with hx' | hx'
        · rcases List.mem_cons.mp hx' with rfl | hx''
          · exact le_refl _
          · exact le_of_eq
              (groupByMinute_mem_bucket ts (u, g) (hg ▸ List.mem_cons_self _ _) x hx'').symm
        · obtain ⟨xl, hxl, hxmem⟩ := List.mem_flatten.mp hx'
          obtain ⟨q, hq, rfl⟩ := List.mem_map.mp hxl
          have hq_bucket : tradeMinute x = tradeMinute q.1 := by
            rcases List.mem_cons.mp hxmem with rfl | hx''
            · rfl
            · exact groupByMinute_mem_bucket ts q (hg ▸ List.mem_cons_of_mem _ hq) x hx''
          have hpair := groupByMinute_pairwise hts
          rw [hg] at hpair
          have h5 := (List.pairwise_cons.mp hpair).1 q hq
          simp only at h5
          omega
      by_cases hb : tradeMinute t = tradeMinute u
      · simp only [groupByMinute, hg, pushTrade] at hp
        rw [if_pos hb] at hp
        rcases List.mem_cons.mp hp with rfl | hp'
        · have hIH := groupByMinute_filter ts hts (u, g) (hg ▸ List.mem_cons_self _ _)
          simp only at hIH ⊢
          rw [List.filter_cons_of_pos (by simp)]
          rw [List.filter_congr (fun x _ => by rw [show (tradeMinute t) = tradeMinute u from hb])]
          rw [← hIH]
        · have hIH := groupByMinute_filter ts hts p (hg ▸ List.mem_cons_of_mem _ hp')
          have hgt : tradeMinute u < tradeMinute p.1 := by
            have hpair := groupByMinute_pairwise hts
            rw [hg] at hpair
            exact (List.pairwise_cons.mp hpair).1 p hp'
          rw [List.filter_cons_of_neg (by simp; omega)]
          exact hIH
      · simp only [groupByMinute, hg, pushTrade] at hp
        rw [if_neg hb] at hp
        have hlt : tradeMinute t < tradeMinute u := lt_of_le_of_ne hbu hb
        rcases List.mem_cons.mp hp with rfl | hp'
        · simp only
          rw [List.filter_cons_of_pos (by simp)]
          rw [List.filter_eq_nil_iff.mpr]
          intro x hx
          have := hu_le x hx
          simp only [beq_iff_eq, decide_eq_true_eq]
          omega
        · have hIH := groupByMinute_filter ts hts p (hg ▸ hp')
          have hge : tradeMinute u ≤ tradeMinute p.1 := by
            rcases List.mem_cons.mp hp' with rfl | hp''
            · exact le_refl _
            · have hpair := groupByMinute_pairwise hts
              rw [hg] at hpair
              exact le_of_lt ((List.pairwise_cons.mp hpair).1 p hp'')
          rw [List.filter_cons_of_neg (by simp; omega)]
          exact hIH

theorem foldl_max_init_le :
    ∀ (g : List Trade) (a : ℚ), a ≤ g.foldl (fun m y => max m y.price) a
  | [], _ => le_refl _
  | y :: ys, a => le_trans (le_max_left a y.price) (foldl_max_init_le ys _)

theorem foldl_max_mem_le :
    ∀ (g : List Trade) (a : ℚ) (x : Trade), x ∈ g →
      x.price ≤ g.foldl (fun m y => max m y.price) a
  | y :: ys, a, x, hx => by
    rcases List.mem_cons.mp hx with rfl | hx'
    · exact le_trans (le_max_right a x.price) (foldl_max_init_le ys _)
    · exact foldl_max_mem_le ys (max a y.price) x hx'

theorem foldl_min_le_init :
    ∀ (g : List Trade) (a : ℚ), g.foldl (fun m y => min m y.price) a ≤ a
  | [], _ => le_refl _
  | y :: ys, a => le_trans (foldl_min_le_init ys _) (min_le_left a y.price)

theorem foldl_min_le_mem :
    ∀ (g : List Trade) (a : ℚ) (x : Trade), x ∈ g →
      g.foldl (fun m y => min m y.price) a ≤ x.price
  | y :: ys, a, x, hx => by
    rcases List.mem_cons.mp hx with rfl | hx'
    · exact le_trans (foldl_min_le_init ys _) (min_le_right a x.price)
    · exact foldl_min_le_mem ys (min a y.price) x hx'

theorem sortTrades_sorted (l : List Trade) :
    List.Sorted (fun a b : Trade => a.timestamp ≤ b.timestamp) (sortTrades l) := by
  haveI : IsTotal Trade (fun a b : Trade => a.timestamp ≤ b.timestamp) :=
    ⟨fun a b => Nat.le_total a.timestamp b.timestamp⟩
  haveI : IsTrans Trade (fun a b : Trade => a.timestamp ≤ b.timestamp) :=
    ⟨fun _ _ _ hab hbc => Nat.le_trans hab hbc⟩
  exact List.sorted_insertionSort _ l

theorem sortTrades_perm (l : List Trade) : (sortTrades l).Perm l :=
  List.perm_insertionSort _ l

/-- C8: `aggregate_to_minute_bars` emits exactly one bar per minute bucket
containing at least one trade and none for empty buckets (bar bucket-start
timestamps are strictly increasing, every bar's bucket holds a trade, and
every trade's bucket has a bar), bars are ordered by bucket start time,
every bar satisfies `low ≤ open ≤ high` and `low ≤ close ≤ high`, and each
bar's volume is the sum of the quantities of the trades in its bucket. -/
theorem c8_minute_bars (trades : List Trade) :
    List.Pairwise (fun b b' : MinuteBar => b.timestamp < b'.timestamp)
        (aggregateToMinuteBars trades) ∧
      (∀ b ∈ aggregateToMinuteBars trades, ∃ t ∈ trades, tradeMinute t * 60000 = b.timestamp) ∧
      (∀ t ∈ trades, ∃ b ∈ aggregateToMinuteBars trades, b.timestamp = tradeMinute t * 60000) ∧
      (∀ b ∈ aggregateToMinuteBars trades,
        b.low ≤ b.«open» ∧ b.«open» ≤ b.high ∧ b.low ≤ b.close ∧ b.close ≤ b.high) ∧
      (∀ b ∈ aggregateToMinuteBars trades,
        b.volume = ((trades.filter (fun t => tradeMinute t * 60000 == b.timestamp)).map
          Trade.quantity).sum) := by
  have hsorted := sortTrades_sorted trades
  have hperm := sortTrades_perm trades
  refine ⟨?_, ?_, ?_, ?_, ?_⟩
  · rw [aggregateToMinuteBars, List.pairwise_map]
    have hpair := groupByMinute_pairwise hsorted
    refine hpair.imp ?_
    intro p q h
    simpa [mkBar] using (Nat.mul_lt_mul_right (by norm_num : (0:ℕ) < 60000)).mpr h
  · intro b hb
    obtain ⟨p, hp, rfl⟩ := List.mem_map.mp hb
    refine ⟨p.1, ?_, rfl⟩
    have : p.1 ∈ sortTrades trades := by
      rw [← groupByMinute_flatten (sortTrades trades)]
      exact List.mem_flatten.mpr ⟨p.1 :: p.2, List.mem_map.mpr ⟨p, hp, rfl⟩,
        List.mem_cons_self _ _⟩
    exact hperm.mem_iff.mp this
  · intro t ht
    have hts : t ∈ sortTrades trades := hperm.mem_iff.mpr ht
    rw [← groupByMinute_flatten (sortTrades trades)] at hts
    obtain ⟨xl, hxl, hxmem⟩ := List.mem_flatten.mp hts
    obtain ⟨p, hp, rfl⟩ := List.mem_map.mp hxl
    refine ⟨mkBar p.1 p.2, List.mem_map.mpr ⟨p, hp, rfl⟩, ?_⟩
    rcases List.mem_cons.mp hxmem with rfl | hmem
    · rfl
    · rw [mkBar]
      simp only
      rw [groupByMinute_mem_bucket (sortTrades trades) p hp t hmem]
  · intro b hb
    obtain ⟨⟨t, g⟩, hp, rfl⟩ := List.mem_map.mp hb
    simp only [mkBar]
    have hlast := List.getLastD_mem_cons g t
    refine ⟨foldl_min_le_init g t.price, foldl_max_init_le g t.price, ?_, ?_⟩
    · rcases List.mem_cons.mp hlast with heq | hmem
      · rw [heq]
        exact foldl_min_le_init g t.price
      · exact foldl_min_le_mem g t.price _ hmem
    · rcases List.mem_cons.mp hlast with heq | hmem
      · rw [heq]
        exact foldl_max_init_le g t.price
      · exact foldl_max_mem_le g t.price _ hmem
  · intro b hb
    obtain ⟨⟨t, g⟩, hp, rfl⟩ := List.mem_map.mp hb
    have hfilter := groupByMinute_filter (sortTrades trades) hsorted (t, g) hp
    simp only at hfilter
    have hpred : ∀ x ∈ trades,
        (tradeMinute x * 60000 == (mkBar t g).timestamp) = (tradeMinute x == tradeMinute t) := by
      intro x _
      show (tradeMinute x * 60000 == tradeMinute t * 60000) = (tradeMinute x == tradeMinute t)
      by_cases h : tradeMinute x = tradeMinute t
      · simp [h]
      · have hne : tradeMinute x * 60000 ≠ tradeMinute t * 60000 := by omega
        simp [h, hne]
    calc (mkBar t g).volume
        = ((t :: g).map Trade.quantity).sum := by simp [mkBar]
      _ = (((sortTrades trades).filter (fun x => tradeMinute x == tradeMinute t)).map
            Trade.quantity).sum := by rw [← hfilter]
      _ = ((trades.filter (fun x => tradeMinute x == tradeMinute t)).map
            Trade.quantity).sum := ((hperm.filter _).map Trade.quantity).sum_eq
      _ = ((trades.filter (fun x => tradeMinute x * 60000 == (mkBar t g).timestamp)).map
            Trade.quantity).sum := by rw [List.filter_congr hpred]

/-- Witness for `c8_minute_bars`: the bucket of a concrete trade receives a
bar. -/
theorem c8_minute_bars_witness :
    ∃ b ∈ aggregateToMinuteBars c8Trades, b.timestamp = tradeMinute c8Trade1 * 60000 :=
  (c8_minute_bars c8Trades).2.2.1 c8Trade1 (by simp [c8Trades])

end VirtuosMarket
